import Mathlib

/-!
Verification of the protocol/data-modelling core of `manual_xml_tool.py`
(TQS LM operator tool): envelope building and XML escaping, version
negotiation, response parsing (metadata, article names, field catalog with
aggregation-level resolution), the order-data builder and the serial-number
block generator.

Python strings are modelled as `String`/`List Char`; Python `int` as
`Int`/`Nat`; functions that may raise are modelled with `Except`/`Option`.
The external XML library call `ET.fromstring` is modelled by passing its
outcome (`Except Unit XElem`) to the parsers, `Except.error` standing for a
raised `ParseError` on malformed input (for example the empty string).
-/

/-! ### Character and list primitives (kernel-reducible replacements for
Python string methods) -/

/-- The double-quote character. -/
def qChar : Char := Char.ofNat 34

/-- The apostrophe character. -/
def apChar : Char := Char.ofNat 39

/-- Whitespace stripped by Python `str.strip()` (ASCII range: space, tab,
LF, CR, VT, FF). -/
def isPySpace (c : Char) : Bool :=
  c = ' ' || c = '\t' || c = '\n' || c = '\r' || c = Char.ofNat 11 || c = Char.ofNat 12

/-- Python `str.strip()` on a character list. -/
def pyStripL (l : List Char) : List Char :=
  ((l.dropWhile isPySpace).reverse.dropWhile isPySpace).reverse

/-- Python `str.strip()`. -/
def pyStrip (s : String) : String := String.mk (pyStripL s.toList)

/-- `needle.isPrefixOf haystack`, as a recursive boolean. -/
def pfxB : List Char → List Char → Bool
  | [], _ => true
  | _ :: _, [] => false
  | a :: as, b :: bs => a = b && pfxB as bs

/-- Python `needle in haystack` substring test. -/
def containsSub (needle : List Char) : List Char → Bool
  | [] => pfxB needle []
  | h :: t => pfxB needle (h :: t) || containsSub needle t

/-- Python `str.lower()` (ASCII). -/
def pyLowerL (l : List Char) : List Char := l.map Char.toLower

/-- Python `str.isdigit()` on ASCII text: nonempty and all decimal digits. -/
def isDigits (l : List Char) : Bool :=
  !l.isEmpty && l.all (fun c => '0' ≤ c && c ≤ '9')

/-- Value of a decimal-digit string (used for Python `int(...)` on strings
that passed `isdigit()`). -/
def digitsToNat (l : List Char) : Nat :=
  l.foldl (fun a c => a * 10 + (c.toNat - '0'.toNat)) 0

/-! ### `xml_escape` (source lines 34-43) -/

/-- One pass of Python `str.replace(c, rep)` for a single-character
pattern `c`. -/
def replaceChar (c : Char) (rep : List Char) : List Char → List Char
  | [] => []
  | h :: t => (if h = c then rep else [h]) ++ replaceChar c rep t

/-- The five successive replaces of `xml_escape`, on a character list
(`&` first, then `<`, `>`, `"`, `'`). -/
def xmlEscapeL (l : List Char) : List Char :=
  replaceChar apChar "&apos;".toList <|
    replaceChar qChar "&quot;".toList <|
      replaceChar '>' "&gt;".toList <|
        replaceChar '<' "&lt;".toList <|
          replaceChar '&' "&amp;".toList l

/-- `xml_escape` from the source: falsy input (`None`/empty) gives `""`,
otherwise the five chained replaces. -/
def xml_escape (s : String) : String :=
  if s = "" then "" else String.mk (xmlEscapeL s.toList)

/-- What a single character becomes under the chain of replaces. -/
def escBlock (c : Char) : List Char :=
  if c = '&' then "&amp;".toList
  else if c = '<' then "&lt;".toList
  else if c = '>' then "&gt;".toList
  else if c = qChar then "&quot;".toList
  else if c = apChar then "&apos;".toList
  else [c]

/-- "No unescaped special character": every `&` begins one of the five XML
entities, and the raw characters `<`, `>`, `"`, `'` never occur. -/
def escapedOK : List Char → Bool
  | [] => true
  | c :: t =>
    (if c = '&' then
      pfxB "amp;".toList t || pfxB "lt;".toList t || pfxB "gt;".toList t ||
        pfxB "quot;".toList t || pfxB "apos;".toList t
     else c != '<' && c != '>' && c != qChar && c != apChar) && escapedOK t

theorem replaceChar_append (c : Char) (rep : List Char) (a b : List Char) :
    replaceChar c rep (a ++ b) = replaceChar c rep a ++ replaceChar c rep b := by
  induction a with
  | nil => simp [replaceChar]
  | cons h t ih => simp [replaceChar, ih]

theorem xmlEscapeL_cons (h : Char) (t : List Char) :
    xmlEscapeL (h :: t) = escBlock h ++ xmlEscapeL t := by
  by_cases h1 : h = '&'
  · subst h1; simp +decide [xmlEscapeL, replaceChar, replaceChar_append, escBlock]
  · by_cases h2 : h = '<'
    · subst h2; simp +decide [xmlEscapeL, replaceChar, replaceChar_append, escBlock]
    · by_cases h3 : h = '>'
      · subst h3; simp +decide [xmlEscapeL, replaceChar, replaceChar_append, escBlock]
      · by_cases h4 : h = qChar
        · subst h4; simp +decide [xmlEscapeL, replaceChar, replaceChar_append, escBlock]
        · by_cases h5 : h = apChar
          · subst h5; simp +decide [xmlEscapeL, replaceChar, replaceChar_append, escBlock]
          · simp [xmlEscapeL, replaceChar, replaceChar_append, escBlock, h1, h2, h3, h4, h5]

theorem escapedOK_escBlock (h : Char) (rest : List Char) :
    escapedOK (escBlock h ++ rest) = escapedOK rest := by
  by_cases h1 : h = '&'
  · subst h1; simp +decide [escBlock, escapedOK, pfxB, qChar, apChar]
  · by_cases h2 : h = '<'
    · subst h2; simp +decide [escBlock, escapedOK, pfxB, qChar, apChar]
    · by_cases h3 : h = '>'
      · subst h3; simp +decide [escBlock, escapedOK, pfxB, qChar, apChar]
      · by_cases h4 : h = qChar
        · subst h4; simp +decide [escBlock, escapedOK, pfxB, qChar, apChar]
        · by_cases h5 : h = apChar
          · subst h5; simp +decide [escBlock, escapedOK, pfxB, qChar, apChar]
          · simp [escBlock, escapedOK, h1, h2, h3, h4, h5]

theorem escapedOK_xmlEscapeL (l : List Char) : escapedOK (xmlEscapeL l) = true := by
  induction l with
  | nil => rfl
  | cons h t ih => rw [xmlEscapeL_cons, escapedOK_escBlock]; exact ih

theorem escapedOK_xml_escape (s : String) : escapedOK (xml_escape s).toList = true := by
  unfold xml_escape
  by_cases h : s = ""
  · simp [h, escapedOK]
  · simp only [h, if_false]; exact escapedOK_xmlEscapeL s.toList

/-! ### `build_tnt` (source lines 429-437) -/

/-- Python truthiness of the optional dbVersion (`if self.db_ver()`:
`None` and the empty string are falsy). -/
def dbTruthy : Option String → Bool
  | none => false
  | some d => d ≠ ""

/-- `build_tnt` from the source: wraps `inner_xml` in the outer envelope.
`iface`, `db`, `ns`, `agent` are the operator-editable protocol fields
(`iface_ver()`, `db_ver()`, `current_ns()`, `agent()`); `ts` stands for the
`iso_now()` timestamp (ambient clock, external). The inner fragment is
inserted verbatim, everything else through `xml_escape`. -/
def build_tnt (iface : String) (db : Option String) (ns agent ts inner_xml : String) :
    String :=
  let db_attr :=
    if dbTruthy db then " dbVersion=\"" ++ xml_escape (db.getD "") ++ "\"" else ""
  "<tnt version=\"" ++ xml_escape iface ++ "\"" ++ db_attr ++ " xmlns=\""
    ++ xml_escape ns ++ "\" xmlns:xsi=\"http://www.w3.org/2001/XMLSchema-instance\">"
    ++ "<header><agent>" ++ xml_escape agent ++ "</agent><timestamp>" ++ ts
    ++ "</timestamp></header>" ++ inner_xml ++ "</tnt>"

/-- C7: for every agent, interface-version, dbVersion and namespace string
(including strings containing `&`, `<`, `>`, `"` or `'`), the envelope
built by `build_tnt` contains those values XML-escaped; the escaped values
contain no raw `<`, `>`, `"`, `'` and every `&` in them starts an XML
entity (so no unescaped `<`, `&` or `"` originates from these
operator-editable inputs); and the caller-supplied inner fragment is
inserted verbatim, unescaped. -/
theorem build_tnt_escapes_operator_input (agent iface ns ts inner : String)
    (d : String) (hd : d ≠ "") :
    escapedOK (xml_escape agent).toList = true ∧
    escapedOK (xml_escape iface).toList = true ∧
    escapedOK (xml_escape ns).toList = true ∧
    escapedOK (xml_escape d).toList = true ∧
    (xml_escape iface).toList <:+: (build_tnt iface (some d) ns agent ts inner).toList ∧
    (xml_escape d).toList <:+: (build_tnt iface (some d) ns agent ts inner).toList ∧
    (xml_escape ns).toList <:+: (build_tnt iface (some d) ns agent ts inner).toList ∧
    (xml_escape agent).toList <:+: (build_tnt iface (some d) ns agent ts inner).toList ∧
    inner.toList <:+: (build_tnt iface (some d) ns agent ts inner).toList := by
  refine ⟨escapedOK_xml_escape agent, escapedOK_xml_escape iface,
    escapedOK_xml_escape ns, escapedOK_xml_escape d, ?_, ?_, ?_, ?_, ?_⟩
  · exact ⟨("<tnt version=\"").toList,
      ("\"" ++ " dbVersion=\"" ++ xml_escape d ++ "\"" ++ " xmlns=\"" ++ xml_escape ns
        ++ "\" xmlns:xsi=\"http://www.w3.org/2001/XMLSchema-instance\">"
        ++ "<header><agent>" ++ xml_escape agent ++ "</agent><timestamp>" ++ ts
        ++ "</timestamp></header>" ++ inner ++ "</tnt>").toList,
      by simp [build_tnt, dbTruthy, hd, String.toList, String.data_append]⟩
  · exact ⟨("<tnt version=\"" ++ xml_escape iface ++ "\"" ++ " dbVersion=\"").toList,
      ("\"" ++ " xmlns=\"" ++ xml_escape ns
        ++ "\" xmlns:xsi=\"http://www.w3.org/2001/XMLSchema-instance\">"
        ++ "<header><agent>" ++ xml_escape agent ++ "</agent><timestamp>" ++ ts
        ++ "</timestamp></header>" ++ inner ++ "</tnt>").toList,
      by simp [build_tnt, dbTruthy, hd, String.toList, String.data_append]⟩
  · exact ⟨("<tnt version=\"" ++ xml_escape iface ++ "\"" ++ " dbVersion=\""
        ++ xml_escape d ++ "\"" ++ " xmlns=\"").toList,
      ("\" xmlns:xsi=\"http://www.w3.org/2001/XMLSchema-instance\">"
        ++ "<header><agent>" ++ xml_escape agent ++ "</agent><timestamp>" ++ ts
        ++ "</timestamp></header>" ++ inner ++ "</tnt>").toList,
      by simp [build_tnt, dbTruthy, hd, String.toList, String.data_append]⟩
  · exact ⟨("<tnt version=\"" ++ xml_escape iface ++ "\"" ++ " dbVersion=\""
        ++ xml_escape d ++ "\"" ++ " xmlns=\"" ++ xml_escape ns
        ++ "\" xmlns:xsi=\"http://www.w3.org/2001/XMLSchema-instance\">"
        ++ "<header><agent>").toList,
      ("</agent><timestamp>" ++ ts ++ "</timestamp></header>" ++ inner ++ "</tnt>").toList,
      by simp [build_tnt, dbTruthy, hd, String.toList, String.data_append]⟩
  · exact ⟨("<tnt version=\"" ++ xml_escape iface ++ "\"" ++ " dbVersion=\""
        ++ xml_escape d ++ "\"" ++ " xmlns=\"" ++ xml_escape ns
        ++ "\" xmlns:xsi=\"http://www.w3.org/2001/XMLSchema-instance\">"
        ++ "<header><agent>" ++ xml_escape agent ++ "</agent><timestamp>" ++ ts
        ++ "</timestamp></header>").toList,
      ("</tnt>").toList,
      by simp [build_tnt, dbTruthy, hd, String.toList, String.data_append]⟩

/-- Witness for C7 at concrete operator input containing `&`, `<` and `"`. -/
theorem build_tnt_escapes_operator_input_witness :
    escapedOK (xml_escape "A&B \"co\"").toList = true :=
  (build_tnt_escapes_operator_input "A&B \"co\"" "1.<15" "http://x?a&b" "ts"
    "<request/>" "2'0" (by decide)).1

/-! ### Candidate version lists (sources: `on_query_version` line 494,
`on_get_articles` line 529, `on_send_create_order` line 709,
`on_send_import_order` line 742, `on_start_order` line 779,
`on_get_fields` lines 556-560) -/

/-- Candidate list used by `on_query_version`. -/
def queryVersionCandidates : List String := ["1.0", "1.1", "2.0"]

/-- Candidate list used by `on_get_articles`. -/
def getArticleListCandidates : List String := ["2.0", "1.1", "1.0"]

/-- Candidate list used by `on_send_create_order`. -/
def createOrderCandidates : List String := ["2.0", "1.2", "1.1", "1.0"]

/-- Candidate list used by `on_send_import_order`. -/
def importOrderCandidates : List String := ["2.0", "1.2", "1.1", "1.0"]

/-- Candidate list used by `on_start_order`. -/
def startOrderCandidates : List String := ["2.0", "1.1", "1.0"]

/-- `on_get_fields` performs no negotiation at all: it builds its
get-article-fields request with this fixed version and sends it directly,
never calling `negotiate_and_send`. -/
def getArticleFieldsFixedVersion : String := "1.0"

/-- Numeric value (major, minor) of a protocol version string "M.m". -/
def verVal (s : String) : Nat × Nat :=
  let l := s.toList
  (digitsToNat (l.takeWhile (· != '.')), digitsToNat ((l.dropWhile (· != '.')).drop 1))

/-- Strict numeric order on protocol version strings. -/
def verLtB (a b : String) : Bool :=
  (verVal a).1 < (verVal b).1 ||
    ((verVal a).1 == (verVal b).1 && (verVal a).2 < (verVal b).2)

/-- The list is ordered strictly highest protocol version first. -/
def strictlyDescendingB : List String → Bool
  | [] => true
  | [_] => true
  | a :: b :: t => verLtB b a && strictlyDescendingB (b :: t)

/-- The list is ordered strictly lowest protocol version first. -/
def strictlyAscendingB : List String → Bool
  | [] => true
  | [_] => true
  | a :: b :: t => verLtB a b && strictlyAscendingB (b :: t)

/-- C6 counterexample: the candidate list handed to the negotiator for
query-version is `["1.0", "1.1", "2.0"]` — lowest protocol version first,
not highest first as claimed. -/
theorem queryVersionCandidates_not_highest_first :
    strictlyDescendingB queryVersionCandidates = false ∧
    queryVersionCandidates = ["1.0", "1.1", "2.0"] ∧
    verLtB "1.0" "2.0" = true := by decide

/-- C6 (amended): the get-article-list, create-order, import-order and
start-order candidate lists are ordered highest protocol version first,
ending at the oldest supported; query-version's list is ordered lowest
version first; and get-article-fields is sent with the fixed version 1.0,
bypassing negotiation entirely. -/
theorem candidate_lists_order :
    strictlyDescendingB getArticleListCandidates = true ∧
    strictlyDescendingB createOrderCandidates = true ∧
    strictlyDescendingB importOrderCandidates = true ∧
    strictlyDescendingB startOrderCandidates = true ∧
    strictlyAscendingB queryVersionCandidates = true ∧
    getArticleFieldsFixedVersion = "1.0" := by decide

/-! ### `build_sns_payload_for_level` (source lines 54-64) -/

/-- f-string rendering `f"{i:02d}"` for the serial numbers 1..10. -/
def pad2 (i : Nat) : String := if i < 10 then "0" ++ toString i else toString i

/-- UTF-8 encoding of one character (1 to 4 bytes, each a `Nat < 256`). -/
def utf8Char (c : Char) : List Nat :=
  let n := c.toNat
  if n < 128 then [n]
  else if n < 2048 then [192 + n / 64, 128 + n % 64]
  else if n < 65536 then [224 + n / 4096, 128 + n / 64 % 64, 128 + n % 64]
  else [240 + n / 262144, 128 + n / 4096 % 64, 128 + n / 64 % 64, 128 + n % 64]

/-- Python `s.encode("utf-8")` as a byte list. -/
def utf8Bytes (s : String) : List Nat := (s.toList.map utf8Char).flatten

/-- `build_sns_payload_for_level` from the source. The external library
calls are passed in as parameters: `compress` stands for `zlib.compress`
and `b64encode` for `base64.b64encode(...).decode("ascii")` (both Python
stdlib, outside this repository). Returns the encoded compressed payload
and the uncompressed byte length. -/
def build_sns_payload_for_level (compress : List Nat → List Nat)
    (b64encode : List Nat → String) (level_id : Int) : String × Nat :=
  let nums := (List.range' 1 10).map pad2
  let inner := "<lvl><id>" ++ toString level_id ++ "</id>"
    ++ String.join (nums.map (fun n => "<sn><no>" ++ n ++ "</no></sn>")) ++ "</lvl>"
  let raw := utf8Bytes inner
  let comp := compress raw
  (b64encode comp, raw.length)

/-- Modelled from the spec: the ten serial-number entries, numbered "01"
through "10", of the inner serial-number document. -/
def snsEntries : String :=
  "<sn><no>01</no></sn><sn><no>02</no></sn><sn><no>03</no></sn><sn><no>04</no></sn>"
    ++ "<sn><no>05</no></sn><sn><no>06</no></sn><sn><no>07</no></sn><sn><no>08</no></sn>"
    ++ "<sn><no>09</no></sn><sn><no>10</no></sn>"

/-- Modelled from the spec: the inner serial-number document for a target
level — the ten entries wrapped in a level-id-tagged element. -/
def snsExpectedDoc (level_id : Int) : String :=
  "<lvl><id>" ++ toString level_id ++ "</id>" ++ snsEntries ++ "</lvl>"

/-- Occurrence count of `needle` in a character list (all start positions). -/
def countSub (needle : List Char) : List Char → Nat
  | [] => 0
  | h :: t => (if pfxB needle (h :: t) then 1 else 0) + countSub needle t

set_option maxRecDepth 40000 in
theorem sns_inner_entries :
    String.join (((List.range' 1 10).map pad2).map
        (fun n => "<sn><no>" ++ n ++ "</no></sn>")) = snsEntries := by decide

set_option maxRecDepth 40000 in
/-- C8: for every target level id, the pair `(b64, n)` returned by the
serial-number block generator is such that zlib-decompressing the
base64-decoding of `b64` yields the UTF-8 encoding of the inner document —
exactly ten serial-number entries numbered "01" through "10", wrapped in a
level-id-tagged element — and `n` is the byte length of that uncompressed
document. The zlib/base64 library round trip is a hypothesis on the
external functions. -/
theorem build_sns_payload_roundtrip (compress : List Nat → List Nat)
    (b64encode : List Nat → String) (decompress : List Nat → List Nat)
    (b64decode : String → List Nat) (level_id : Int)
    (hround : ∀ bs, decompress (b64decode (b64encode (compress bs))) = bs) :
    decompress (b64decode (build_sns_payload_for_level compress b64encode level_id).1)
        = utf8Bytes (snsExpectedDoc level_id) ∧
    (build_sns_payload_for_level compress b64encode level_id).2
        = (utf8Bytes (snsExpectedDoc level_id)).length ∧
    countSub "<sn><no>".toList snsEntries.toList = 10 := by
  have hdoc : "<lvl><id>" ++ toString level_id ++ "</id>"
      ++ String.join (((List.range' 1 10).map pad2).map
          (fun n => "<sn><no>" ++ n ++ "</no></sn>")) ++ "</lvl>"

      = snsExpectedDoc level_id := by
    rw [sns_inner_entries]; rfl
  refine ⟨?_, ?_, by decide⟩
  · show decompress (b64decode (b64encode (compress _))) = _
    rw [hround]; rw [hdoc]
  · show (utf8Bytes _).length = _
    rw [hdoc]

/-- An injective byte-list-to-string coding with total inverse, used only
to instantiate the external encoder in the C8 witness. -/
def unaryEnc (bs : List Nat) : String :=
  String.mk ((bs.map (fun n => List.replicate n 'a' ++ ['b'])).flatten)

/-- Inverse of `unaryEnc`. -/
def unaryDecAux : Nat → List Char → List Nat
  | _, [] => []
  | k, c :: t => if c = 'b' then k :: unaryDecAux 0 t else unaryDecAux (k + 1) t

/-- Inverse of `unaryEnc`. -/
def unaryDec (s : String) : List Nat := unaryDecAux 0 s.toList

theorem unaryDecAux_block (n k : Nat) (rest : List Char) :
    unaryDecAux k (List.replicate n 'a' ++ 'b' :: rest) = (k + n) :: unaryDecAux 0 rest := by
  induction n generalizing k with
  | zero => simp [unaryDecAux]
  | succ m ih => simp [List.replicate_succ, unaryDecAux, ih, Nat.add_comm,
      Nat.add_assoc, Nat.add_left_comm]

theorem unaryDec_unaryEnc (bs : List Nat) : unaryDec (unaryEnc bs) = bs := by
  show unaryDecAux 0 _ = bs
  induction bs with
  | nil => rfl
  | cons n t ih =>
    show unaryDecAux 0 ((List.replicate n 'a' ++ ['b']) ++ _) = n :: t
    rw [List.append_assoc, List.singleton_append, unaryDecAux_block, Nat.zero_add]
    exact congrArg (n :: ·) ih

/-- Witness for C8: with identity compression and the invertible coding
above, at level 3 the reported length is the byte length of the expected
uncompressed document. -/
theorem build_sns_payload_roundtrip_witness :
    (build_sns_payload_for_level id unaryEnc 3).2
        = (utf8Bytes (snsExpectedDoc 3)).length :=
  (build_sns_payload_roundtrip id unaryEnc id unaryDec 3
    (fun bs => unaryDec_unaryEnc bs)).2.1

/-! ### `negotiate_and_send` (source lines 456-477) -/

/-- Python `"version-error" in resp`. -/
def hasVersionError (resp : String) : Bool :=
  containsSub "version-error".toList resp.toList

/-- Match of `<concerning>([^<]+)</concerning>` anchored at this position:
the literal open tag, a nonempty maximal run of non-`<` characters (the
group), then the literal close tag. Only the maximal run can be followed
by `<`, so greedy matching needs no backtracking here. -/
def concerningAt (cs : List Char) : Option (List Char) :=
  if pfxB "<concerning>".toList cs then
    let rest := cs.drop 12
    let grp := rest.takeWhile (· != '<')
    if grp.isEmpty then none
    else if pfxB "</concerning>".toList (rest.drop grp.length) then some grp
    else none
  else none

/-- Python `re.search(r"<concerning>([^<]+)</concerning>", s)`: the group
of the match at the earliest start position. -/
def concerningSearch : List Char → Option (List Char)
  | [] => none
  | h :: t =>
    match concerningAt (h :: t) with
    | some g => some g
    | none => concerningSearch t

/-- One send of a negotiation run: the version sent via
`send_inner(body_builder(...))`, tagged `forced := true` when it was the
out-of-band retry with the server-named concerning version. -/
structure SendEvt where
  forced : Bool
  ver : String
deriving DecidableEq, Repr

/-- Result of a negotiation run: the response string the Python function
returns, plus instrumentation recording the sends in order. -/
structure NegoResult where
  resp : String
  events : List SendEvt
deriving DecidableEq, Repr

/-- The loop of `negotiate_and_send`. The server (Transport plus remote
peer, external) is modelled as a function from the versions sent so far
(latest last) to the response text; `sent` feeds it, `tried` is the Python
`tried` list, `last_resp` the running `last_resp`. Control flow mirrors the
source line by line; `events` is instrumentation. -/
def negotiateAux (server : List String → String) :
    List String → List String → List String → String → NegoResult
  | [], _, _, last_resp => ⟨last_resp, []⟩
  | ver :: rest, sent, tried, _ =>
    let tried' := tried ++ [ver]
    let sent' := sent ++ [ver]
    let resp := server sent'
    if hasVersionError resp then
      match concerningSearch resp.toList with
      | some g =>
        let want := pyStrip (String.mk g)
        if want ≠ "" ∧ want ∉ tried' then
          let sent2 := sent' ++ [want]
          let resp2 := server sent2
          if hasVersionError resp2 then
            let r := negotiateAux server rest sent2 tried' resp2
            ⟨r.resp, ⟨false, ver⟩ :: ⟨true, want⟩ :: r.events⟩
          else ⟨resp2, [⟨false, ver⟩, ⟨true, want⟩]⟩
        else
          let r := negotiateAux server rest sent' tried' resp
          ⟨r.resp, ⟨false, ver⟩ :: r.events⟩
      | none =>
        let r := negotiateAux server rest sent' tried' resp
        ⟨r.resp, ⟨false, ver⟩ :: r.events⟩
    else ⟨resp, [⟨false, ver⟩]⟩

/-- `negotiate_and_send`: iterate the candidates with `tried = []` and
`last_resp = ""`, inspecting each response for a version error and a
concerning version, with a single immediate forced retry on a concerning
version not yet in `tried`. -/
def negotiate_and_send (server : List String → String) (candidates : List String) :
    NegoResult :=
  negotiateAux server candidates [] [] ""

/-- C1: with candidate list ["2.0", "1.1", "1.0"] against a server that
answers any history whose last send is not "1.1" with a version-error
naming "1.1" in `<concerning>`, and any send of "1.1" without a
version-error, `negotiate_and_send` returns the successful response after
exactly two sends — the first candidate, then the forced out-of-band retry
with "1.1" — bypassing the remaining candidates. -/
theorem negotiate_converges_in_two_sends (server : List String → String)
    (herr : ∀ hist v, v ≠ "1.1" →
      hasVersionError (server (hist ++ [v])) = true ∧
      concerningSearch (server (hist ++ [v])).toList = some "1.1".toList)
    (hok : ∀ hist, hasVersionError (server (hist ++ ["1.1"])) = false) :
    (negotiate_and_send server ["2.0", "1.1", "1.0"]).events
        = [⟨false, "2.0"⟩, ⟨true, "1.1"⟩] ∧
    (negotiate_and_send server ["2.0", "1.1", "1.0"]).resp = server ["2.0", "1.1"] ∧
    hasVersionError (negotiate_and_send server ["2.0", "1.1", "1.0"]).resp = false := by
  have h1 := herr [] "2.0" (by decide)
  have h2 := hok ["2.0"]
  simp at h1 h2
  have hstrip : pyStrip (String.mk ['1', '.', '1']) = "1.1" := by decide
  simp +decide [negotiate_and_send, negotiateAux, h1.1, h1.2, hstrip, h2]

/-- Witness server for C1: version-errors naming "1.1" until "1.1" itself
is the version just sent. -/
def c1Server (hist : List String) : String :=
  if hist.getLast? = some "1.1" then "<tnt><return-value>ok</return-value></tnt>"
  else "<tnt><version-error/><concerning>1.1</concerning></tnt>"

/-- Witness for C1 at the concrete server `c1Server`: exactly the two
sends, candidate "2.0" then forced "1.1". -/
theorem negotiate_converges_in_two_sends_witness :
    (negotiate_and_send c1Server ["2.0", "1.1", "1.0"]).events
        = [⟨false, "2.0"⟩, ⟨true, "1.1"⟩] :=
  (negotiate_converges_in_two_sends c1Server
    (fun hist v hv => by
      have hg : (hist ++ [v]).getLast? = some v := by simp
      refine ⟨?_, ?_⟩ <;> simp +decide [c1Server, hg, hv])
    (fun hist => by
      have hg : (hist ++ ["1.1"]).getLast? = some ("1.1" : String) := by simp
      simp +decide [c1Server, hg])).1

set_option maxRecDepth 100000 in
/-- C5 counterexample: with candidate list ["2.0", "1.0"] and a server
that always answers a version-error naming "1.0", one run sends "1.0"
twice — once as the forced out-of-band retry and once as the following
candidate — so the versions sent during the run are not pairwise
distinct. -/
theorem negotiate_sends_a_version_twice :
    ((negotiate_and_send (fun _ => "<e><version-error/><concerning>1.0</concerning></e>")
        ["2.0", "1.0"]).events.map SendEvt.ver) = ["2.0", "1.0", "1.0"] ∧
    ¬ (((negotiate_and_send (fun _ => "<e><version-error/><concerning>1.0</concerning></e>")
        ["2.0", "1.0"]).events.map SendEvt.ver).Nodup) := by decide

/-- Trace discipline: scan the send events left to right, recording
candidate sends in `tried` exactly the way the loop does; every forced
send must then be of a nonempty version not recorded at that moment.
Forced sends themselves are not recorded, mirroring the source. -/
def ForcedFresh : List String → List SendEvt → Prop
  | _, [] => True
  | tried, e :: rest =>
    if e.forced then e.ver ∉ tried ∧ e.ver ≠ "" ∧ ForcedFresh tried rest
    else ForcedFresh (tried ++ [e.ver]) rest

/-- The candidate (non-forced) versions of a trace, in order. -/
def candsOf (evs : List SendEvt) : List String :=
  evs.filterMap (fun e => if e.forced then none else some e.ver)

theorem negotiateAux_trace_ok (server : List String → String) :
    ∀ (rest sent tried : List String) (last : String),
      candsOf (negotiateAux server rest sent tried last).events <+: rest ∧
      ForcedFresh tried (negotiateAux server rest sent tried last).events := by
  intro rest
  induction rest with
  | nil =>
    intro sent tried last
    simp [negotiateAux, candsOf, ForcedFresh]
  | cons ver rest ih =>
    intro sent tried last
    rw [negotiateAux]
    dsimp only
    split
    · split
      · split
        · split
          · -- forced retry sent, still a version error: continue
            rename_i hguard _
            refine ⟨?_, ?_⟩
            · simpa [candsOf, List.cons_prefix_cons] using
                (ih (sent ++ [ver] ++ [pyStrip (String.mk _)]) (tried ++ [ver]) _).1
            · simpa [ForcedFresh, hguard.1, hguard.2] using
                (ih (sent ++ [ver] ++ [pyStrip (String.mk _)]) (tried ++ [ver]) _).2
          · -- forced retry succeeded: run stops
            rename_i hguard _
            refine ⟨?_, ?_⟩
            · simp [candsOf]
            · simp [ForcedFresh, hguard.1, hguard.2]
        · -- concerning version empty or already tried: continue
          refine ⟨?_, ?_⟩
          · simpa [candsOf, List.cons_prefix_cons] using
              (ih (sent ++ [ver]) (tried ++ [ver]) _).1
          · simpa [ForcedFresh] using (ih (sent ++ [ver]) (tried ++ [ver]) _).2
      · -- version error without usable concerning version: continue
        refine ⟨?_, ?_⟩
        · simpa [candsOf, List.cons_prefix_cons] using
            (ih (sent ++ [ver]) (tried ++ [ver]) _).1
        · simpa [ForcedFresh] using (ih (sent ++ [ver]) (tried ++ [ver]) _).2
    · -- no version error: run stops
      refine ⟨?_, ?_⟩
      · simp [candsOf]
      · simp [ForcedFresh]

/-- C5 (amended): in every run of `negotiate_and_send`, every candidate
version is recorded in `tried` at the moment it is sent — the candidate
sends form an initial segment of the candidate list — and a server-named
concerning version triggers the forced retry only when it is nonempty and
not among the versions recorded in `tried` at that moment. Forced-retry
versions themselves are never recorded, so a version can still be sent
twice in one run (see the counterexample). -/
theorem negotiate_tried_discipline (server : List String → String)
    (candidates : List String) :
    candsOf (negotiate_and_send server candidates).events <+: candidates ∧
    ForcedFresh [] (negotiate_and_send server candidates).events :=
  negotiateAux_trace_ok server candidates [] [] ""

/-! ### The parsed XML tree and `strip_ns` (source lines 48-49) -/

/-- Opening brace character. -/
def lbChar : Char := Char.ofNat 123

/-- Closing brace character. -/
def rbChar : Char := Char.ofNat 125

/-- An element of the parsed XML tree, the shape `xml.etree.ElementTree`
exposes to this code: tag (plain or namespace-bracketed), attributes,
text, children. Python object identity (`id(...)`) of a node is modelled
by its path — the list of child indices — from the traversal root. -/
inductive XElem : Type where
  | node (tag : String) (attrs : List (String × String)) (text : Option String)
      (children : List XElem)

/-- The element's tag. -/
def XElem.tag : XElem → String
  | node t _ _ _ => t

/-- The element's attributes. -/
def XElem.attrs : XElem → List (String × String)
  | node _ a _ _ => a

/-- The element's text. -/
def XElem.text : XElem → Option String
  | node _ _ x _ => x

/-- The element's direct children. -/
def XElem.children : XElem → List XElem
  | node _ _ _ cs => cs

/-- `strip_ns`: drop a leading `{namespace}` wrapper from a tag.
ElementTree produces either plain tags or `{uri}local`, so the closing
brace is present whenever the leading one is. -/
def strip_ns (tag : String) : String :=
  if pfxB [lbChar] tag.toList then String.mk ((tag.toList.dropWhile (· != rbChar)).drop 1)
  else tag

mutual
/-- `Element.iter()` with node identity: the node itself, then each
child's subtree, in document order, each node paired with its path from
the traversal root. -/
def preordP : XElem → List Nat → List (List Nat × XElem)
  | XElem.node t a x cs, p => (p, XElem.node t a x cs) :: preordPs cs p 0
/-- Preorder of sibling subtrees below path `p`, the first rooted at
child index `i`. -/
def preordPs : List XElem → List Nat → Nat → List (List Nat × XElem)
  | [], _, _ => []
  | c :: cs, p, i => preordP c (p ++ [i]) ++ preordPs cs p (i + 1)
end

/-- `Element.iter()` without identity: the nodes in document order. -/
def preord (e : XElem) : List XElem := (preordP e []).map Prod.snd

/-- The node at a path below a root, if any. -/
def getAt : XElem → List Nat → Option XElem
  | e, [] => some e
  | e, i :: p =>
    match e.children[i]? with
    | some c => getAt c p
    | none => none

/-- `attrib.get(key, "")`. -/
def attrGet (e : XElem) (key : String) : String :=
  match e.attrs.find? (fun kv => kv.1 == key) with
  | some kv => kv.2
  | none => ""

/-! ### `parse_tnt_meta` (source lines 71-81) -/

/-- Namespace extraction of `parse_tnt_meta`: the bracketed namespace of
the root tag if present, else the root's literal `xmlns` attribute, else
the fallback namespace. -/
def tntNamespace (root : XElem) : String :=
  if pfxB [lbChar] root.tag.toList then
    String.mk ((root.tag.toList.drop 1).takeWhile (· != rbChar))
  else if attrGet root "xmlns" = "" then "http://www.wipotec.com"
  else attrGet root "xmlns"

/-- `parse_tnt_meta`: namespace, `version` and `dbVersion` attributes of
the root, plus the root itself. The call to the external `ET.fromstring`
has no surrounding try/except in this function, so a parse failure (the
`Except.error` outcome of `fromstring`) propagates to the caller. -/
def parse_tnt_meta (fromstring : Except Unit XElem) :
    Except Unit (String × String × String × XElem) :=
  match fromstring with
  | .error e => .error e
  | .ok root =>
    .ok (tntNamespace root, attrGet root "version", attrGet root "dbVersion", root)

/-! ### `parse_article_names` (source lines 85-96) -/

/-- `parse_article_names`: every element tagged `article`
(namespace-agnostic) whose first direct `name` child has nonempty stripped
text contributes that stripped text, in document order. The body sits in a
try/except, so a parse failure yields the empty list. -/
def parse_article_names (fromstring : Except Unit XElem) : List String :=
  match fromstring with
  | .error _ => []
  | .ok root =>
    (preord root).filterMap (fun el =>
      if strip_ns el.tag = "article" then
        match el.children.find? (fun c => strip_ns c.tag == "name") with
        | some nm =>
          if pyStrip (nm.text.getD "") ≠ "" then some (pyStrip (nm.text.getD ""))
          else none
        | none => none
      else none)

/-! ### `parse_article_fields` (source lines 101-186) -/

/-- A field record as returned by `parse_article_fields`: exactly the keys
of the dict built at source lines 177-183. -/
structure FieldRow where
  level : Nat
  name : String
  display : String
  writable : Bool
  preset : Option String
deriving DecidableEq, Repr

/-- The level of one `aggregation-level` element: the first direct child
tagged `id` whose stripped text is all digits, read as a number;
otherwise 1. -/
def aggLevelOf (agg : XElem) : Nat :=
  match agg.children.find? (fun ch => strip_ns ch.tag == "id"
      && isDigits (pyStripL (ch.text.getD "").toList)) with
  | some ch => digitsToNat (pyStripL (ch.text.getD "").toList)
  | none => 1

/-- The contribution of one node of the pass-1 scan: when the node is an
`aggregation-level` marker, one entry per node of its subtree (the marker
itself included, as `agg.iter()` does) carrying the marker's level. -/
def aggPayload (pe : List Nat × XElem) : Option (List (List Nat × Nat)) :=
  if strip_ns pe.2.tag == "aggregation-level" then
    some ((preordP pe.2 pe.1).map (fun qe => (qe.1, aggLevelOf pe.2)))
  else none

/-- Pass 1 (source lines 140-150): for every `aggregation-level` element
under the response node, in document order, the entries of `aggPayload`.
Keys are paths relative to the response node; assignment order is the
concatenation order. -/
def levelEntries (response : XElem) : List (List Nat × Nat) :=
  ((preordP response []).filterMap aggPayload).flatten

/-- The dict `level_map` built by successive assignment, as a lookup: the
value of the last entry for the key, if any. -/
def lookupLast (entries : List (List Nat × Nat)) (q : List Nat) : Option Nat :=
  ((entries.filter (fun e => e.1 == q)).getLast?).map Prod.snd

/-- One step of the direct-children scan (source lines 159-168): last-wins
assignment of the stripped name, display-name, writable and preset texts
depending on the child's stripped tag. -/
def scanStep (acc : Option String × Option String × Option String × Option String)
    (ch : XElem) : Option String × Option String × Option String × Option String :=
  let loc := strip_ns ch.tag
  if loc = "name" then (some (pyStrip (ch.text.getD "")), acc.2.1, acc.2.2.1, acc.2.2.2)
  else if loc = "display-name" then
    (acc.1, some (pyStrip (ch.text.getD "")), acc.2.2.1, acc.2.2.2)
  else if loc = "writable" then
    (acc.1, acc.2.1, some (pyStrip (ch.text.getD "")), acc.2.2.2)
  else if loc = "value-set-by-article" || loc = "preset" || loc = "default-value" then
    (acc.1, acc.2.1, acc.2.2.1, some (pyStrip (ch.text.getD "")))
  else acc

/-- The direct-children scan of one candidate element (source lines
155-168). -/
def scanChildren (cs : List XElem) :
    Option String × Option String × Option String × Option String :=
  cs.foldl scanStep (none, none, none, none)

/-- Python `str.lower()`. -/
def pyLower (s : String) : String := String.mk (pyLowerL s.toList)

/-- The row for one element (source lines 169-183): `none` unless direct
`name` and `display-name` children both exist (their text may be empty);
`writable` defaults to true unless the writable text lowercases to "0",
"false" or "no". -/
def rowOf (lvl : Nat) (cs : List XElem) : Option FieldRow :=
  match scanChildren cs with
  | (some nm, some disp, w, preset) =>
    some { level := lvl, name := nm, display := disp,
           writable := (match w with
                        | none => true
                        | some wt => !(["0", "false", "no"] : List String).contains (pyLower wt)),
           preset := preset }
  | _ => none

/-- `parse_article_fields`: find the first element tagged `response`;
build the level map over its subtree (pass 1); then every node under it
with direct `name` and `display-name` children yields a row whose level is
looked up by node identity, default 1 (pass 2). The body sits in a
try/except, so a parse failure yields the empty list. -/
def parse_article_fields (fromstring : Except Unit XElem) : List FieldRow :=
  match fromstring with
  | .error _ => []
  | .ok root =>
    match (preord root).find? (fun el => strip_ns el.tag == "response") with
    | none => []
    | some response =>
      (preordP response []).filterMap (fun pe =>
        rowOf ((lookupLast (levelEntries response) pe.1).getD 1) pe.2.children)

/-- C3 counterexample: for malformed (non-XML) input the external
`ET.fromstring` raises — the `Except.error` outcome — and `parse_tnt_meta`
has no try/except, so the failure propagates to its caller instead of
yielding empty values: the metadata parser does raise. -/
theorem parse_tnt_meta_raises_on_malformed :
    parse_tnt_meta (Except.error ()) = Except.error () ∧
    (parse_tnt_meta (Except.error ())).isOk = false :=
  ⟨rfl, rfl⟩

/-- C3 (amended): a decode failure makes `parse_tnt_meta` propagate the
error to its caller (which catches it itself, in `on_query_version`); the
parsers that never raise are `parse_article_names` and
`parse_article_fields`, which return empty lists on decode failure; and on
every successfully decoded tree `parse_tnt_meta` returns a value. -/
theorem parse_tnt_meta_error_behaviour :
    parse_tnt_meta (Except.error ()) = Except.error () ∧
    (∀ root : XElem, (parse_tnt_meta (Except.ok root)).isOk = true) ∧
    parse_article_names (Except.error ()) = [] ∧
    parse_article_fields (Except.error ()) = [] :=
  ⟨rfl, fun _ => rfl, rfl, rfl⟩

/-- Witness for C3 (amended) at a concrete tree: metadata extraction
succeeds on a one-node document. -/
theorem parse_tnt_meta_error_behaviour_witness :
    (parse_tnt_meta (Except.ok (XElem.node "tnt" [] none []))).isOk = true :=
  parse_tnt_meta_error_behaviour.2.1 (XElem.node "tnt" [] none [])

/-! ### C4: constraints are never recorded on field rows -/

/-- The constraint list the editor builder receives for a row:
`populate_fields_tree` (source line 633) passes `f.get("constraints", [])`
to `_make_editor_for_constraints`, and the row dicts built by
`parse_article_fields` (source lines 177-183) never contain a
"constraints" key, so the lookup always yields the default empty list.
Constraints are (type code, value) pairs. -/
def rowConstraints (_r : FieldRow) : List (Int × String) := []

/-- The element's subtree contains a `constraint`-tagged element. -/
def hasConstraintDescendant (e : XElem) : Bool :=
  (preord e).any (fun n => strip_ns n.tag == "constraint")

/-- A response whose single field carries an explicit type-27 constraint
element in its subtree. -/
def c4doc : XElem :=
  XElem.node "tnt" [] none [XElem.node "response" [] none
    [XElem.node "data-field" [] none
      [XElem.node "name" [] (some "SN") [],
       XElem.node "display-name" [] (some "Serial") [],
       XElem.node "constraint" [] none
         [XElem.node "type" [] (some "27") [],
          XElem.node "value" [] (some "[0-9]+") []]]]]

set_option maxRecDepth 100000 in
/-- C4: evaluating the code at the failing input `c4doc` — a field whose
subtree holds an explicit type-27 constraint element. The field row is
extracted, but it records no constraints (there is no constraints key in
the row), so the constraint list later handed to the editor builder is
empty rather than containing the type-27 constraint. -/
theorem parse_article_fields_drops_constraints :
    hasConstraintDescendant c4doc = true ∧
    parse_article_fields (Except.ok c4doc)
        = [{ level := 1, name := "SN", display := "Serial", writable := true,
             preset := none }] ∧
    (parse_article_fields (Except.ok c4doc)).map rowConstraints = [[]] := by
  decide

/-! ### C10: field classification is presence-based -/

/-- The element has a direct child with the given stripped tag. -/
def hasDirectChild (tagName : String) (e : XElem) : Bool :=
  e.children.any (fun c => strip_ns c.tag == tagName)

theorem foldl_scanStep_name (cs : List XElem) :
    ∀ acc, ((cs.foldl scanStep acc).1).isSome
      = (acc.1.isSome || cs.any (fun c => strip_ns c.tag == "name")) := by
  induction cs with
  | nil => intro acc; simp
  | cons ch t ih =>
    intro acc
    rw [List.foldl_cons, List.any_cons]
    by_cases h1 : strip_ns ch.tag = "name"
    · simp [scanStep, h1, ih]
    · by_cases h2 : strip_ns ch.tag = "display-name"
      · simp [scanStep, h1, h2, ih]
      · by_cases h3 : strip_ns ch.tag = "writable"
        · simp [scanStep, h1, h2, h3, ih]
        · by_cases h4 : strip_ns ch.tag = "value-set-by-article"
          · simp [scanStep, h1, h2, h3, h4, ih]
          · by_cases h5 : strip_ns ch.tag = "preset"
            · simp [scanStep, h1, h2, h3, h4, h5, ih]
            · by_cases h6 : strip_ns ch.tag = "default-value"
              · simp [scanStep, h1, h2, h3, h4, h5, h6, ih]
              · have hb : (strip_ns ch.tag == "name") = false := by
                  simp [h1]
                simp [scanStep, h1, h2, h3, h4, h5, h6, ih, hb]

theorem foldl_scanStep_disp (cs : List XElem) :
    ∀ acc, ((cs.foldl scanStep acc).2.1).isSome
      = (acc.2.1.isSome || cs.any (fun c => strip_ns c.tag == "display-name")) := by
  induction cs with
  | nil => intro acc; simp
  | cons ch t ih =>
    intro acc
    rw [List.foldl_cons, List.any_cons]
    by_cases h1 : strip_ns ch.tag = "name"
    · simp [scanStep, h1, ih]
    · by_cases h2 : strip_ns ch.tag = "display-name"
      · simp [scanStep, h1, h2, ih]
      · by_cases h3 : strip_ns ch.tag = "writable"
        · simp [scanStep, h1, h2, h3, ih]
        · by_cases h4 : strip_ns ch.tag = "value-set-by-article"
          · simp [scanStep, h1, h2, h3, h4, ih]
          · by_cases h5 : strip_ns ch.tag = "preset"
            · simp [scanStep, h1, h2, h3, h4, h5, ih]
            · by_cases h6 : strip_ns ch.tag = "default-value"
              · simp [scanStep, h1, h2, h3, h4, h5, h6, ih]
              · have hb : (strip_ns ch.tag == "display-name") = false := by
                  simp [h2]
                simp [scanStep, h1, h2, h3, h4, h5, h6, ih, hb]

theorem rowOf_isSome (lvl : Nat) (e : XElem) :
    (rowOf lvl e.children).isSome
      = (hasDirectChild "name" e && hasDirectChild "display-name" e) := by
  have h1 := foldl_scanStep_name e.children (none, none, none, none)
  have h2 := foldl_scanStep_disp e.children (none, none, none, none)
  simp only [Option.isSome_none, Bool.false_or] at h1 h2
  unfold rowOf
  rcases hscan : scanChildren e.children with ⟨n, d, w, p⟩
  rw [show e.children.foldl scanStep (none, none, none, none) = (n, d, w, p) from hscan]
    at h1 h2
  cases n <;> cases d <;>
    simp_all [hasDirectChild]

theorem length_filterMap_eq_countP {α β : Type} (f : α → Option β) (l : List α) :
    (l.filterMap f).length = l.countP (fun a => (f a).isSome) := by
  induction l with
  | nil => rfl
  | cons h t ih =>
    cases hf : f h <;> simp [List.filterMap_cons, hf, List.countP_cons, ih]

/-- The response subtree of the C10 document: an `article` element whose
`name` and `display-name` children exist but are textless. -/
def c10resp : XElem :=
  XElem.node "response" [] none
    [XElem.node "article" [] none
      [XElem.node "name" [] none [],
       XElem.node "display-name" [] none []]]

/-- The C10 document. -/
def c10doc : XElem := XElem.node "tnt" [] none [c10resp]

set_option maxRecDepth 100000 in
/-- C10: `parse_article_fields` classifies an element as a field based
solely on the presence of direct `name` and `display-name` children — the
number of rows equals the number of nodes under the response with both
children present, whatever their text. On a document whose field has
textless `name` and `display-name` children it still yields a row with
empty name and display strings, while `parse_article_names` on the same
document collects nothing because the article's `name` child has no
nonempty text. -/
theorem parse_article_fields_presence_classification :
    (∀ (root response : XElem),
      (preord root).find? (fun el => strip_ns el.tag == "response") = some response →
      (parse_article_fields (Except.ok root)).length
        = (preordP response []).countP
            (fun pe => hasDirectChild "name" pe.2 && hasDirectChild "display-name" pe.2)) ∧
    parse_article_fields (Except.ok c10doc)
        = [{ level := 1, name := "", display := "", writable := true, preset := none }] ∧
    parse_article_names (Except.ok c10doc) = [] := by
  refine ⟨?_, by decide, by decide⟩
  intro root response hresp
  simp only [parse_article_fields, hresp]
  rw [length_filterMap_eq_countP]
  refine List.countP_congr (fun pe _ => ?_)
  exact iff_of_eq (congrArg (fun b => b = true)
    (rowOf_isSome ((lookupLast (levelEntries response) pe.1).getD 1) pe.2))

set_option maxRecDepth 100000 in
/-- Witness for C10 at the concrete document `c10doc`. -/
theorem parse_article_fields_presence_classification_witness :
    (parse_article_fields (Except.ok c10doc)).length
        = (preordP c10resp []).countP
            (fun pe => hasDirectChild "name" pe.2 && hasDirectChild "display-name" pe.2) :=
  parse_article_fields_presence_classification.1 c10doc c10resp (by rfl)

/-! ### C2: level resolution assigns the nearest enclosing marker's level -/

mutual
theorem preordP_rebase (e : XElem) (p : List Nat) :
    preordP e p = (preordP e []).map (fun qe => (p ++ qe.1, qe.2)) := by
  cases e with
  | node t a x cs =>
    rw [preordP, preordP, preordPs_rebase cs p 0]
    simp
theorem preordPs_rebase (cs : List XElem) (p : List Nat) (i : Nat) :
    preordPs cs p i = (preordPs cs [] i).map (fun qe => (p ++ qe.1, qe.2)) := by
  cases cs with
  | nil => rfl
  | cons c cs =>
    rw [preordPs, preordPs]
    simp only [List.nil_append]
    rw [preordP_rebase c (p ++ [i]), preordP_rebase c [i],
      preordPs_rebase cs p (i + 1)]
    simp [Function.comp]
end

/-- The paths of the subtree of `e`, rooted at the empty path; they model
the Python object identities of the subtree's nodes. -/
def subPaths (e : XElem) : List (List Nat) := (preordP e []).map Prod.fst

/-- Paths of sibling subtrees, the first child at index `i`. -/
def childPaths : List XElem → Nat → List (List Nat)
  | [], _ => []
  | c :: cs, i => (subPaths c).map (i :: ·) ++ childPaths cs (i + 1)

theorem map_fst_preordPs (cs : List XElem) (i : Nat) :
    (preordPs cs [] i).map Prod.fst = childPaths cs i := by
  induction cs generalizing i with
  | nil => rfl
  | cons c cs ih =>
    rw [preordPs, childPaths]
    simp only [List.nil_append]
    rw [preordP_rebase c [i]]
    simp only [List.map_append, List.map_map]
    rw [ih (i + 1)]
    simp [subPaths, List.map_map, Function.comp]

theorem subPaths_node (t : String) (a : List (String × String)) (x : Option String)
    (cs : List XElem) :
    subPaths (XElem.node t a x cs) = [] :: childPaths cs 0 := by
  rw [subPaths, preordP, List.map_cons, map_fst_preordPs]

theorem XElem.inducn (P : XElem → Prop)
    (h : ∀ t a x cs, (∀ c ∈ cs, P c) → P (XElem.node t a x cs)) : ∀ e, P e
  | XElem.node t a x cs => h t a x cs (fun c hc => XElem.inducn P h c)
termination_by e => sizeOf e
decreasing_by
  have := List.sizeOf_lt_of_mem hc
  simp only [XElem.node.sizeOf_spec]
  omega

theorem childPaths_head_bound (cs : List XElem) (i : Nat) :
    ∀ q ∈ childPaths cs i, ∃ i0 q', i ≤ i0 ∧ q = i0 :: q' := by
  induction cs generalizing i with
  | nil => intro q hq; simp [childPaths] at hq
  | cons c cs ih =>
    intro q hq
    rw [childPaths] at hq
    rcases List.mem_append.1 hq with h | h
    · rcases List.mem_map.1 h with ⟨q0, _, rfl⟩
      exact ⟨i, q0, Nat.le_refl i, rfl⟩
    · rcases ih (i + 1) q h with ⟨i0, q', hle, rfl⟩
      exact ⟨i0, q', by omega, rfl⟩

theorem count_map_cons (i : Nat) (l : List (List Nat)) (q : List Nat) :
    (l.map (i :: ·)).count (i :: q) = l.count q := by
  induction l with
  | nil => rfl
  | cons h t ih =>
    rw [List.map_cons, List.count_cons, List.count_cons, ih]
    have hc : ((i :: h : List Nat) == i :: q) = (h == q) := by
      simp [List.cons_beq_cons]
    rw [hc]

theorem count_childPaths (cs : List XElem)
    (hcs : ∀ c ∈ cs, ∀ q ∈ subPaths c, (subPaths c).count q = 1) :
    ∀ (i : Nat), ∀ q ∈ childPaths cs i, (childPaths cs i).count q = 1 := by
  induction cs with
  | nil => intro i q hq; simp [childPaths] at hq
  | cons c cs ih =>
    intro i q hq
    rw [childPaths] at hq ⊢
    rw [List.count_append]
    rcases List.mem_append.1 hq with h | h
    · rcases List.mem_map.1 h with ⟨q0, hq0, rfl⟩
      have h1 : ((subPaths c).map (i :: ·)).count (i :: q0) = 1 :=
        (count_map_cons i (subPaths c) q0).trans (hcs c (by simp) q0 hq0)
      have h2 : (childPaths cs (i + 1)).count (i :: q0) = 0 := by
        rw [List.count_eq_zero]
        intro hmem
        rcases childPaths_head_bound cs (i + 1) _ hmem with ⟨i0, q', hle, heq⟩
        cases heq
        omega
      omega
    · have h2 := ih (fun c' hc' => hcs c' (by simp [hc'])) (i + 1) q h
      rcases childPaths_head_bound cs (i + 1) q h with ⟨i0, q', hle, rfl⟩
      have h1 : ((subPaths c).map (i :: ·)).count (i0 :: q') = 0 := by
        rw [List.count_eq_zero]
        intro hmem
        rcases List.mem_map.1 hmem with ⟨q0, _, heq⟩
        cases heq
        omega
      omega

theorem count_subPaths : ∀ (e : XElem), ∀ q ∈ subPaths e, (subPaths e).count q = 1 := by
  intro e
  induction e using XElem.inducn with
  | h t a x cs ih =>
    intro q hq
    rw [subPaths_node] at hq ⊢
    rcases List.mem_cons.1 hq with rfl | hq
    · rw [List.count_cons]
      simp only [beq_self_eq_true, if_true]
      have : (childPaths cs 0).count ([] : List Nat) = 0 := by
        rw [List.count_eq_zero]
        intro hmem
        rcases childPaths_head_bound cs 0 _ hmem with ⟨i0, q', _, heq⟩
        cases heq
      omega
    · rcases childPaths_head_bound cs 0 q hq with ⟨i0, q', _, rfl⟩
      rw [List.count_cons]
      have hz : (([] : List Nat) == i0 :: q') = false := rfl
      rw [hz]
      simpa using count_childPaths cs ih 0 (i0 :: q') hq

theorem mem_childPaths (cs : List XElem) :
    ∀ (i i0 : Nat) (q' : List Nat), (i0 :: q') ∈ childPaths cs i →
      ∃ j c, cs[j]? = some c ∧ i0 = i + j ∧ q' ∈ subPaths c := by
  induction cs with
  | nil => intro i i0 q' h; simp [childPaths] at h
  | cons c cs ih =>
    intro i i0 q' h
    rw [childPaths] at h
    rcases List.mem_append.1 h with h | h
    · rcases List.mem_map.1 h with ⟨q0, hq0, heq⟩
      cases heq
      exact ⟨0, c, by simp, by omega, hq0⟩
    · rcases ih (i + 1) i0 q' h with ⟨j, c', hj, hij, hq'⟩
      exact ⟨j + 1, c', by simpa using hj, by omega, hq'⟩

theorem levelEntries_rebase (c : XElem) (base : List Nat) :
    ((preordP c base).filterMap aggPayload).flatten
      = (levelEntries c).map (fun en => (base ++ en.1, en.2)) := by
  rw [preordP_rebase c base, List.filterMap_map]
  have hcomp : ∀ qe : List Nat × XElem,
      (aggPayload ∘ fun qe => (base ++ qe.1, qe.2)) qe
        = (aggPayload qe).map (List.map (fun en => (base ++ en.1, en.2))) := by
    intro qe
    rcases qe with ⟨q, m⟩
    show aggPayload (base ++ q, m) = _
    unfold aggPayload
    by_cases hm : strip_ns m.tag == "aggregation-level"
    · simp only [hm, if_true, Option.map_some]
      rw [preordP_rebase m (base ++ q), preordP_rebase m q]
      simp [List.map_map, Function.comp, List.append_assoc]
    · simp [hm]
  rw [List.filterMap_congr (fun qe _ => hcomp qe)]
  rw [← List.map_filterMap]
  rw [← List.map_flatten]
  rfl

/-- The level entries contributed by sibling subtrees from child index
`i`, keys rebased by the child index. -/
def childEntries : List XElem → Nat → List (List Nat × Nat)
  | [], _ => []
  | c :: cs, i =>
    (levelEntries c).map (fun en => (i :: en.1, en.2)) ++ childEntries cs (i + 1)

theorem flatten_filterMap_preordPs (cs : List XElem) (i : Nat) :
    ((preordPs cs [] i).filterMap aggPayload).flatten = childEntries cs i := by
  induction cs generalizing i with
  | nil => rfl
  | cons c cs ih =>
    rw [preordPs, childEntries]
    simp only [List.nil_append, List.filterMap_append, List.flatten_append]
    rw [levelEntries_rebase c [i], ih (i + 1)]
    rfl

theorem levelEntries_node (t : String) (a : List (String × String)) (x : Option String)
    (cs : List XElem) :
    levelEntries (XElem.node t a x cs)
      = (if strip_ns t == "aggregation-level"
          then (preordP (XElem.node t a x cs) []).map
            (fun qe => (qe.1, aggLevelOf (XElem.node t a x cs)))
          else [])
        ++ childEntries cs 0 := by
  conv_lhs => rw [levelEntries, preordP]
  rw [List.filterMap_cons]
  by_cases hm : strip_ns t == "aggregation-level"
  · have hp : aggPayload ([], XElem.node t a x cs)
        = some ((preordP (XElem.node t a x cs) []).map
            (fun qe => (qe.1, aggLevelOf (XElem.node t a x cs)))) := by
      unfold aggPayload
      simp only [XElem.tag, hm, if_true]
    rw [hp]
    simp only [hm, if_true, List.flatten_cons]
    rw [flatten_filterMap_preordPs cs 0]
  · have hp : aggPayload ([], XElem.node t a x cs) = none := by
      unfold aggPayload
      simp only [XElem.tag]
      simp [hm]
    rw [hp]
    rw [flatten_filterMap_preordPs cs 0]
    simp [hm]

theorem childEntries_key_head (cs : List XElem) :
    ∀ (i : Nat), ∀ en ∈ childEntries cs i, ∃ i0 q', i ≤ i0 ∧ en.1 = i0 :: q' := by
  induction cs with
  | nil => intro i en hen; simp [childEntries] at hen
  | cons c cs ih =>
    intro i en hen
    rw [childEntries] at hen
    rcases List.mem_append.1 hen with h | h
    · rcases List.mem_map.1 h with ⟨en0, _, rfl⟩
      exact ⟨i, en0.1, Nat.le_refl i, rfl⟩
    · rcases ih (i + 1) en h with ⟨i0, q', hle, heq⟩
      exact ⟨i0, q', by omega, heq⟩

theorem filterKey_childEntries_nil (cs : List XElem) (i : Nat) :
    (childEntries cs i).filter (fun en => en.1 == ([] : List Nat)) = [] := by
  rw [List.filter_eq_nil_iff]
  intro en hen
  rcases childEntries_key_head cs i en hen with ⟨i0, q', _, heq⟩
  simp [heq]

theorem filterKey_childEntries_lt (cs : List XElem) (i i0 : Nat) (q' : List Nat)
    (hlt : i0 < i) :
    (childEntries cs i).filter (fun en => en.1 == i0 :: q') = [] := by
  rw [List.filter_eq_nil_iff]
  intro en hen
  rcases childEntries_key_head cs i en hen with ⟨i1, q1, hle, heq⟩
  rw [heq]
  simp only [List.cons_beq_cons, Bool.and_eq_true, beq_iff_eq]
  intro hcontra
  omega

theorem filterKey_childEntries (cs : List XElem) :
    ∀ (i j : Nat) (c : XElem) (q' : List Nat), cs[j]? = some c →
      (childEntries cs i).filter (fun en => en.1 == (i + j) :: q')
        = ((levelEntries c).filter (fun en => en.1 == q')).map
            (fun en => ((i + j) :: en.1, en.2)) := by
  induction cs with
  | nil => intro i j c q' hj; simp at hj
  | cons c0 cs ih =>
    intro i j c q' hj
    rw [childEntries, List.filter_append]
    cases j with
    | zero =>
      have hc : c0 = c := by simpa using hj
      subst hc
      have h2 : (childEntries cs (i + 1)).filter (fun en => en.1 == (i + 0) :: q') = [] :=
        filterKey_childEntries_lt cs (i + 1) (i + 0) q' (by omega)
      rw [h2, List.append_nil, List.filter_map]
      congr 1
      refine List.filter_congr (fun en _ => ?_)
      show ((i :: en.1 : List Nat) == (i + 0) :: q') = (en.1 == q')
      simp [List.cons_beq_cons]
    | succ j =>
      have hj' : cs[j]? = some c := by simpa using hj
      have h1 : ((levelEntries c0).map (fun en => (i :: en.1, en.2))).filter
          (fun en => en.1 == (i + (j + 1)) :: q') = [] := by
        rw [List.filter_eq_nil_iff]
        intro en hen
        rcases List.mem_map.1 hen with ⟨en0, _, rfl⟩
        simp only [List.cons_beq_cons, Bool.and_eq_true, beq_iff_eq]
        intro hcontra
        omega
      rw [h1, List.nil_append]
      have := ih (i + 1) j c q' hj'
      rw [show (i + 1) + j = i + (j + 1) by omega] at this
      exact this

theorem selfBlock_filter (e : XElem) (lvl : Nat) (q : List Nat) (hq : q ∈ subPaths e) :
    ((((preordP e []).map (fun qe => (qe.1, lvl))).filter
        (fun en => en.1 == q)).map Prod.snd) = [lvl] := by
  rw [List.filter_map, List.map_map]
  have hsnd : (Prod.snd ∘ fun qe : List Nat × XElem => (qe.1, lvl)) = fun _ => lvl := rfl
  rw [hsnd, List.map_const']
  have hlen : ((preordP e []).filter
      ((fun en : List Nat × Nat => en.1 == q) ∘ fun qe => (qe.1, lvl))).length = 1 := by
    have hpred : ((fun en : List Nat × Nat => en.1 == q) ∘
        fun qe : List Nat × XElem => (qe.1, lvl)) = fun qe => qe.1 == q := rfl
    rw [hpred, ← List.countP_eq_length_filter]
    have hcount := count_subPaths e q hq
    rw [List.count, subPaths, List.countP_map] at hcount
    exact hcount
  rw [hlen]
  rfl

/-- The marker test at one ancestor-or-self path: the level of the
element at `p` below the response when that element is an
`aggregation-level` marker. -/
def markerLevelAt (response : XElem) (p : List Nat) : Option Nat :=
  match getAt response p with
  | some e => if strip_ns e.tag == "aggregation-level" then some (aggLevelOf e) else none
  | none => none

/-- The ancestor-or-self paths of a path, shortest (the root) first. -/
def pathPrefixes : List Nat → List (List Nat)
  | [] => [[]]
  | i :: p => [] :: (pathPrefixes p).map (i :: ·)

/-- Modelled from the spec: the level the spec's Level Resolver assigns to
the node at path `q` — the level of its nearest (deepest ancestor-or-self)
enclosing `aggregation-level` element, or 1 when no enclosing marker
exists. -/
def nearestEnclosingLevel (response : XElem) (q : List Nat) : Nat :=
  (((pathPrefixes q).filterMap (markerLevelAt response)).getLast?).getD 1

theorem filterKey_levelEntries : ∀ (e : XElem), ∀ q ∈ subPaths e,
    ((levelEntries e).filter (fun en => en.1 == q)).map Prod.snd
      = (pathPrefixes q).filterMap (markerLevelAt e) := by
  intro e
  induction e using XElem.inducn with
  | h t a x cs ih =>
    intro q hq
    rw [levelEntries_node, List.filter_append, List.map_append]
    have hself : markerLevelAt (XElem.node t a x cs) []
        = if strip_ns t == "aggregation-level"
          then some (aggLevelOf (XElem.node t a x cs)) else none := by
      simp [markerLevelAt, getAt, XElem.tag]
    cases q with
    | nil =>
      rw [filterKey_childEntries_nil cs 0]
      simp only [List.map_nil, List.append_nil]
      show _ = List.filterMap (markerLevelAt (XElem.node t a x cs)) [[]]
      rw [List.filterMap_cons, hself]
      by_cases hm : strip_ns t == "aggregation-level"
      · simp only [hm, if_true, List.filterMap_nil]
        exact selfBlock_filter (XElem.node t a x cs) (aggLevelOf (XElem.node t a x cs)) [] hq
      · simp [hm]
    | cons i q' =>
      have hmem : (i :: q') ∈ childPaths cs 0 := by
        rw [subPaths_node] at hq
        rcases List.mem_cons.1 hq with heq | h
        · cases heq
        · exact h
      rcases mem_childPaths cs 0 i q' hmem with ⟨j, c, hj, hij, hq'⟩
      have hij' : i = j := by omega
      subst hij'
      have hchild := filterKey_childEntries cs 0 i c q' (by simpa using hj)
      rw [show (0 + i) = i by omega] at hchild
      rw [hchild]
      have hcmem : c ∈ cs := by
        have := List.getElem?_eq_some_iff.1 (by simpa using hj)
        rcases this with ⟨hlt, hget⟩
        exact hget ▸ List.getElem_mem hlt
      have hihc := ih c hcmem q' hq'
      show _ = List.filterMap (markerLevelAt (XElem.node t a x cs))
        ([] :: (pathPrefixes q').map (i :: ·))
      rw [List.filterMap_cons, hself]
      have htail : ((pathPrefixes q').map (i :: ·)).filterMap
          (markerLevelAt (XElem.node t a x cs))
          = (pathPrefixes q').filterMap (markerLevelAt c) := by
        rw [List.filterMap_map]
        refine List.filterMap_congr (fun p _ => ?_)
        show markerLevelAt (XElem.node t a x cs) (i :: p) = markerLevelAt c p
        rw [markerLevelAt, markerLevelAt]
        have : getAt (XElem.node t a x cs) (i :: p) = getAt c p := by
          rw [getAt]
          simp only [XElem.children]
          rw [show cs[i]? = some c from by simpa using hj]
        rw [this]
      rw [htail]
      have hmapsnd : (((levelEntries c).filter (fun en => en.1 == q')).map
          (fun en => (i :: en.1, en.2))).map Prod.snd
          = ((levelEntries c).filter (fun en => en.1 == q')).map Prod.snd := by
        rw [List.map_map]
        rfl
      rw [hmapsnd, hihc]
      by_cases hm : strip_ns t == "aggregation-level"
      · simp only [hm, if_true]
        rw [selfBlock_filter (XElem.node t a x cs) (aggLevelOf (XElem.node t a x cs))
          (i :: q') hq]
        rfl
      · simp [hm]

theorem lookupLast_eq_nearest (response : XElem) (q : List Nat)
    (hq : q ∈ subPaths response) :
    (lookupLast (levelEntries response) q).getD 1 = nearestEnclosingLevel response q := by
  rw [lookupLast, nearestEnclosingLevel, ← filterKey_levelEntries response q hq]
  simp [List.getLast?_map]

/-- The response subtree of the C2 document: a level-1 marker containing a
field and a nested level-2 marker containing another field. -/
def c2resp : XElem :=
  XElem.node "response" [] none
    [XElem.node "aggregation-level" [] none
      [XElem.node "id" [] (some "1") [],
       XElem.node "data-field" [] none
         [XElem.node "name" [] (some "outer") [],
          XElem.node "display-name" [] (some "Outer") []],
       XElem.node "aggregation-level" [] none
         [XElem.node "id" [] (some "2") [],
          XElem.node "data-field" [] none
            [XElem.node "name" [] (some "inner") [],
             XElem.node "display-name" [] (some "Inner") []]]]]

/-- The C2 document. -/
def c2doc : XElem := XElem.node "tnt" [] none [c2resp]

set_option maxRecDepth 400000 in
/-- C2: for every response tree, the level the two-pass document-order
scan of `parse_article_fields` records for a node (the last `level_map`
assignment, default 1) is the level of the node's nearest enclosing
(deepest ancestor-or-self) `aggregation-level` element, default 1 when no
marker encloses it — later, deeper markers overwrite their descendants'
assignments. Concretely, in a document with a level-2 marker nested in a
level-1 marker, the field inside the inner marker resolves to level 2 and
the outer field to level 1. -/
theorem level_resolution_nearest_enclosing :
    (∀ (response : XElem) (q : List Nat), q ∈ subPaths response →
      (lookupLast (levelEntries response) q).getD 1 = nearestEnclosingLevel response q) ∧
    (parse_article_fields (Except.ok c2doc)).map (fun r => (r.name, r.level))
        = [("outer", 1), ("inner", 2)] := by
  refine ⟨fun response q hq => lookupLast_eq_nearest response q hq, ?_⟩
  decide

set_option maxRecDepth 400000 in
/-- Witness for C2 at the inner field's path in the concrete nested
document. -/
theorem level_resolution_nearest_enclosing_witness :
    (lookupLast (levelEntries c2resp) [0, 2, 1]).getD 1
      = nearestEnclosingLevel c2resp [0, 2, 1] :=
  level_resolution_nearest_enclosing.1 c2resp [0, 2, 1] (by decide)

/-! ### `build_order_data_xml_from_tree` (source lines 641-683) -/

/-- One child row of the fields tree as `build_order_data_xml_from_tree`
reads it back from the GUI: column 1 (field name), column 3 (the writable
text, "yes"/"no" as written by `populate_fields_tree`), and the text of
the `QLineEdit` editor in column 4 when one was installed (`none` when the
cell holds no editor). -/
structure TreeChild where
  name : String
  writableText : String
  editorText : Option String

/-- One top-level item of the fields tree: column 0 (the level text) and
its child rows. -/
structure TreeLevel where
  levelText : String
  children : List TreeChild

/-- Python `int(s)` for a string: optional sign and nonempty decimal
digits after stripping whitespace; `none` models the `ValueError` that the
`except` at source line 648 swallows. -/
def pyIntOpt (s : String) : Option Int :=
  match pyStripL s.toList with
  | '-' :: ds => if isDigits ds then some (-(digitsToNat ds : Int)) else none
  | '+' :: ds => if isDigits ds then some ((digitsToNat ds : Int)) else none
  | ds => if isDigits ds then some ((digitsToNat ds : Int)) else none

/-- `it.text(3).lower().startswith("y")`. -/
def startsY (s : String) : Bool :=
  match pyLowerL s.toList with
  | 'y' :: _ => true
  | _ => false

/-- The inner child loop (source lines 651-664): the (name, value) pairs
of one item whose writable text starts with "y" and whose stripped editor
text is nonempty, in row order. -/
def childFilledPairs (it : TreeLevel) : List (String × String) :=
  it.children.filterMap (fun ch =>
    if startsY ch.writableText then
      (if pyStrip (ch.editorText.getD "") = "" then none
       else some (ch.name, pyStrip (ch.editorText.getD "")))
    else none)

/-- `filled.setdefault(lvl, []).append(...)` for a batch of pairs. -/
def appendAssoc (m : List (Int × List (String × String))) (lvl : Int)
    (new : List (String × String)) : List (Int × List (String × String)) :=
  match m with
  | [] => [(lvl, new)]
  | (k, v) :: rest =>
    if k = lvl then (k, v ++ new) :: rest else (k, v) :: appendAssoc rest lvl new

/-- `filled.get(lvl, [])`. -/
def lookupAssoc (m : List (Int × List (String × String))) (lvl : Int) :
    List (String × String) :=
  match m with
  | [] => []
  | (k, v) :: rest => if k = lvl then v else lookupAssoc rest lvl

/-- One iteration of the outer loop (source lines 644-664): skip the item
when its level text does not parse as an int; otherwise add the level to
`all_levels` (a set: insert if new) and append the item's filled pairs to
`filled[lvl]`. -/
def collectStep (acc : List Int × List (Int × List (String × String)))
    (item : TreeLevel) : List Int × List (Int × List (String × String)) :=
  match pyIntOpt item.levelText with
  | none => acc
  | some lvl =>
    let levels := if lvl ∈ acc.1 then acc.1 else acc.1 ++ [lvl]
    let pairs := childFilledPairs item
    (levels, if pairs = [] then acc.2 else appendAssoc acc.2 lvl pairs)

/-- `"\n".join(parts)`. -/
def joinNL : List String → String
  | [] => ""
  | [p] => p
  | p :: rest => p ++ "\n" ++ joinNL rest

/-- The lines of one `<aggregation-level>` block (source lines 669-681):
id, then one `<element>` per filled pair with name and value XML-escaped,
inside `<data-field-values>`. -/
def renderLevelBlock (lvl : Int) (pairs : List (String × String)) : List String :=
  ["  <aggregation-level>", "    <id>" ++ toString lvl ++ "</id>",
    "    <data-field-values>"]
  ++ pairs.flatMap (fun nv =>
      ["      <element>",
       "        <name>" ++ xml_escape nv.1 ++ "</name>",
       "        <value>" ++ xml_escape nv.2 ++ "</value>",
       "      </element>"])
  ++ ["    </data-field-values>", "  </aggregation-level>"]

/-- The full `<order-data>` fragment: one block per level, in list order,
lines joined with newlines (source lines 667-683). -/
def renderDoc (levels : List Int) (pairsAt : Int → List (String × String)) : String :=
  joinNL (["<order-data>"]
    ++ levels.flatMap (fun lvl => renderLevelBlock lvl (pairsAt lvl))
    ++ ["</order-data>"])

/-- `build_order_data_xml_from_tree`: collect levels and filled pairs from
the tree items, default the level set to {0} when empty, sort ascending,
render the fragment, and return it with the sorted level list. -/
def build_order_data_xml_from_tree (items : List TreeLevel) : String × List Int :=
  let acc := items.foldl collectStep ([], [])
  let all_levels := if acc.1 = [] then [0] else acc.1
  let sortedLevels := List.insertionSort (· ≤ ·) all_levels
  (renderDoc sortedLevels (lookupAssoc acc.2), sortedLevels)

/-- Modelled from the spec: the levels present in the catalog — the items
whose level text parses, in item order, duplicates preserved. -/
def parsedLevels (items : List TreeLevel) : List Int :=
  items.filterMap (fun it => pyIntOpt it.levelText)

/-- Modelled from the spec: all filled (name, value) pairs of the items
carrying level `lvl`, in fill order. -/
def filledPairsAt (items : List TreeLevel) (lvl : Int) : List (String × String) :=
  (items.filter (fun it => pyIntOpt it.levelText == some lvl)).flatMap childFilledPairs

theorem collect_levels_mem (items : List TreeLevel) :
    ∀ (acc : List Int × List (Int × List (String × String))) (lvl : Int),
      lvl ∈ (items.foldl collectStep acc).1 ↔ lvl ∈ acc.1 ∨ lvl ∈ parsedLevels items := by
  induction items with
  | nil => intro acc lvl; simp [parsedLevels]
  | cons it rest ih =>
    intro acc lvl
    rw [List.foldl_cons]
    cases hp : pyIntOpt it.levelText with
    | none =>
      rw [show collectStep acc it = acc from by simp [collectStep, hp]]
      rw [ih acc lvl]
      simp [parsedLevels, List.filterMap_cons, hp]
    | some l0 =>
      have hstep : (collectStep acc it).1 = if l0 ∈ acc.1 then acc.1 else acc.1 ++ [l0] := by
        simp [collectStep, hp]
      have hmem : lvl ∈ (collectStep acc it).1 ↔ lvl ∈ acc.1 ∨ lvl = l0 := by
        rw [hstep]
        by_cases h0 : l0 ∈ acc.1
        · simp only [h0, if_true]
          constructor
          · exact fun h => Or.inl h
          · rintro (h | rfl)
            · exact h
            · exact h0
        · simp [h0]
      rw [ih (collectStep acc it) lvl, hmem]
      simp only [parsedLevels, List.filterMap_cons, hp, List.mem_cons]
      constructor
      · rintro ((h | rfl) | h)
        · exact Or.inl h
        · exact Or.inr (Or.inl rfl)
        · exact Or.inr (Or.inr (by simpa [parsedLevels] using h))
      · rintro (h | rfl | h)
        · exact Or.inl (Or.inl h)
        · exact Or.inl (Or.inr rfl)
        · exact Or.inr (by simpa [parsedLevels] using h)

theorem collect_levels_nodup (items : List TreeLevel) :
    ∀ (acc : List Int × List (Int × List (String × String))),
      acc.1.Nodup → (items.foldl collectStep acc).1.Nodup := by
  induction items with
  | nil => intro acc h; exact h
  | cons it rest ih =>
    intro acc h
    rw [List.foldl_cons]
    refine ih (collectStep acc it) ?_
    cases hp : pyIntOpt it.levelText with
    | none => simpa [collectStep, hp] using h
    | some l0 =>
      have hstep : (collectStep acc it).1 = if l0 ∈ acc.1 then acc.1 else acc.1 ++ [l0] := by
        simp [collectStep, hp]
      rw [hstep]
      by_cases h0 : l0 ∈ acc.1
      · simpa [h0] using h
      · simp only [h0, if_false]
        rw [List.nodup_append]
        exact ⟨h, List.nodup_singleton l0, by simpa using h0⟩

theorem appendAssoc_lookup (m : List (Int × List (String × String))) (l0 : Int)
    (ps : List (String × String)) (lvl : Int) :
    lookupAssoc (appendAssoc m l0 ps) lvl
      = lookupAssoc m lvl ++ (if lvl = l0 then ps else []) := by
  induction m with
  | nil =>
    by_cases h : l0 = lvl
    · subst h; simp [appendAssoc, lookupAssoc]
    · have h2 : ¬ lvl = l0 := fun hh => h hh.symm
      simp [appendAssoc, lookupAssoc, h, h2]
  | cons kv rest ih =>
    rcases kv with ⟨k, v⟩
    rw [appendAssoc]
    by_cases hk : k = l0
    · subst hk
      simp only [if_true]
      rw [lookupAssoc, lookupAssoc]
      by_cases hlk : k = lvl
      · subst hlk; simp
      · simp only [hlk, if_false]
        rw [if_neg (fun hh => hlk hh.symm), List.append_nil]
    · simp only [hk, if_false]
      rw [lookupAssoc, lookupAssoc]
      by_cases hlk : k = lvl
      · subst hlk
        simp only [if_true]
        rw [if_neg hk, List.append_nil]
      · simp only [hlk, if_false]
        exact ih

theorem collect_filled_lookup (items : List TreeLevel) :
    ∀ (acc : List Int × List (Int × List (String × String))) (lvl : Int),
      lookupAssoc (items.foldl collectStep acc).2 lvl
        = lookupAssoc acc.2 lvl ++ filledPairsAt items lvl := by
  induction items with
  | nil => intro acc lvl; simp [filledPairsAt]
  | cons it rest ih =>
    intro acc lvl
    have hsplit : filledPairsAt (it :: rest) lvl
        = (if pyIntOpt it.levelText == some lvl then childFilledPairs it else [])
          ++ filledPairsAt rest lvl := by
      rw [filledPairsAt, List.filter_cons]
      by_cases h : (pyIntOpt it.levelText == some lvl) = true
      · simp only [h, if_true, List.flatMap_cons]
        rfl
      · have hb : (pyIntOpt it.levelText == some lvl) = false := by simpa using h
        simp only [hb, Bool.false_eq_true, if_false, List.nil_append]
        rfl
    rw [List.foldl_cons, hsplit]
    cases hp : pyIntOpt it.levelText with
    | none =>
      rw [show collectStep acc it = acc from by simp [collectStep, hp]]
      rw [ih acc lvl]
      simp [hp]
    | some l0 =>
      have hstep : (collectStep acc it).2
          = if childFilledPairs it = [] then acc.2
            else appendAssoc acc.2 l0 (childFilledPairs it) := by
        simp [collectStep, hp]
      rw [ih (collectStep acc it) lvl, hstep]
      by_cases hps : childFilledPairs it = []
      · simp [hps]
      · simp only [hps, if_false]
        rw [appendAssoc_lookup, List.append_assoc]
        by_cases hl : lvl = l0
        · subst hl; simp
        · have hb : ((some l0 == some lvl) : Bool) = false := by
            simp only [beq_eq_false_iff_ne, ne_eq, Option.some.injEq]
            exact fun hh => hl hh.symm
          rw [hb, if_neg hl]
          simp

set_option maxRecDepth 40000 in
/-- C9: for every field catalog as read back from the GUI tree, the
builder returns an ascending, duplicate-free level list — the distinct
levels whose text parses as an int, or the single placeholder 0 when none
exist — and the fragment renders one `<aggregation-level>` block per such
level in that order, each holding exactly the (name, value) pairs filled
at that level, in fill order, names and values XML-escaped; a level whose
fields were all left unfilled gets an empty `<data-field-values>` list,
and the empty catalog yields exactly the single level-0 placeholder
document. -/
theorem build_order_data_properties (items : List TreeLevel) :
    (build_order_data_xml_from_tree items).2.Sorted (· ≤ ·) ∧
    (build_order_data_xml_from_tree items).2.Nodup ∧
    (parsedLevels items = [] → (build_order_data_xml_from_tree items).2 = [0]) ∧
    (∀ lvl : Int, lvl ∈ (build_order_data_xml_from_tree items).2 ↔
      (lvl ∈ parsedLevels items ∨ (parsedLevels items = [] ∧ lvl = 0))) ∧
    (build_order_data_xml_from_tree items).1
      = renderDoc (build_order_data_xml_from_tree items).2 (filledPairsAt items) ∧
    build_order_data_xml_from_tree []
      = ("<order-data>\n  <aggregation-level>\n    <id>0</id>\n    <data-field-values>\n"
          ++ "    </data-field-values>\n  </aggregation-level>\n</order-data>", [0]) := by
  have hmem0 : ∀ lvl : Int, lvl ∈ (items.foldl collectStep ([], [])).1
      ↔ lvl ∈ parsedLevels items := by
    intro lvl
    rw [collect_levels_mem items ([], []) lvl]
    simp
  have hnil : (items.foldl collectStep ([], [])).1 = [] ↔ parsedLevels items = [] := by
    rw [List.eq_nil_iff_forall_not_mem, List.eq_nil_iff_forall_not_mem]
    exact ⟨fun h lvl hl => h lvl ((hmem0 lvl).2 hl), fun h lvl hl => h lvl ((hmem0 lvl).1 hl)⟩
  have hbase_nodup : (if (items.foldl collectStep ([], [])).1 = []
      then ([0] : List Int) else (items.foldl collectStep ([], [])).1).Nodup := by
    by_cases hb : (items.foldl collectStep ([], [])).1 = []
    · simp [hb]
    · simpa [hb] using collect_levels_nodup items ([], []) (by simp)
  have hperm : List.Perm
      (List.insertionSort (· ≤ ·) (if (items.foldl collectStep ([], [])).1 = []
        then ([0] : List Int) else (items.foldl collectStep ([], [])).1))
      (if (items.foldl collectStep ([], [])).1 = []
        then ([0] : List Int) else (items.foldl collectStep ([], [])).1) :=
    List.perm_insertionSort _ _
  refine ⟨?_, ?_, ?_, ?_, ?_, ?_⟩
  · exact List.sorted_insertionSort _ _
  · exact hperm.nodup_iff.2 hbase_nodup
  · intro hpl
    have hb : (items.foldl collectStep ([], [])).1 = [] := hnil.2 hpl
    show List.insertionSort (· ≤ ·) (if (items.foldl collectStep ([], [])).1 = []
        then ([0] : List Int) else (items.foldl collectStep ([], [])).1) = [0]
    rw [hb]
    rfl
  · intro lvl
    show lvl ∈ List.insertionSort (· ≤ ·) (if (items.foldl collectStep ([], [])).1 = []
        then ([0] : List Int) else (items.foldl collectStep ([], [])).1) ↔ _
    rw [hperm.mem_iff]
    by_cases hb : (items.foldl collectStep ([], [])).1 = []
    · have hpl : parsedLevels items = [] := hnil.1 hb
      simp [hb, hpl]
    · have hpl : ¬ parsedLevels items = [] := fun h => hb (hnil.2 h)
      simp only [hb, if_false]
      rw [hmem0 lvl]
      simp [hpl]
  · have hfun : lookupAssoc (items.foldl collectStep ([], [])).2 = filledPairsAt items := by
      funext lvl
      rw [collect_filled_lookup items ([], []) lvl]
      rfl
    show renderDoc _ (lookupAssoc (items.foldl collectStep ([], [])).2) = renderDoc _ _
    rw [hfun]
    rfl
  · decide

/-- Witness for C9 at a concrete catalog: levels {1, 2} with fields only
at level 1 (one filled, one preset-like unfilled) still renders via the
declarative grouping — including the empty level-2 block. -/
theorem build_order_data_properties_witness :
    (build_order_data_xml_from_tree
        [⟨"1", [⟨"qty", "yes", some "7"⟩, ⟨"color", "no", none⟩]⟩, ⟨"2", []⟩]).1
      = renderDoc (build_order_data_xml_from_tree
          [⟨"1", [⟨"qty", "yes", some "7"⟩, ⟨"color", "no", none⟩]⟩, ⟨"2", []⟩]).2
        (filledPairsAt
          [⟨"1", [⟨"qty", "yes", some "7"⟩, ⟨"color", "no", none⟩]⟩, ⟨"2", []⟩]) :=
  (build_order_data_properties
    [⟨"1", [⟨"qty", "yes", some "7"⟩, ⟨"color", "no", none⟩]⟩, ⟨"2", []⟩]).2.2.2.2.1
